import Mathlib

/-!
Verification development for the AV1 video converter repository.

The conversion pipeline of the repository consists of a Go backend
(`app.go`: media probing with ffprobe, encoding with ffmpeg, and a
progress monitor that tails the encoder log file) and a Svelte frontend
(`App.svelte`: the job queue driver).  This file gives a shallow
embedding of the pipeline's data model and operations and proves the
specified properties about them.

Modelling conventions:
* Go strings are modelled as lists of Unicode scalar values (`GoStr`);
  the Go `len` on strings is modelled by the UTF-8 byte length
  (`utf8Len`), and Go byte slicing by `takeBytes`.
* Go `float64` arithmetic is modelled by `GoFloat`: exact rationals
  extended with the IEEE special values `posInf`, `negInf` and `nan`
  that the monitor's division can produce.  Binary rounding of finite
  values is abstracted to exact rational arithmetic; the ordering and
  special-value behaviour used by the monitor is preserved (division by
  zero yields an infinity or NaN and never faults, NaN comparisons are
  false).
* External effects (process exit codes, filesystem errors) are passed
  as explicit parameters; emitted UI events are collected in a list.
-/

/-- Go strings as sequences of Unicode scalar values. -/
abbrev GoStr := List Char

/-- Whitespace class of Go regular expressions: the character class
behind the pattern element matching whitespace is exactly
space, tab, newline, form feed and carriage return. -/
def isSpaceGo (c : Char) : Bool :=
  c == ' ' || c == '\t' || c == '\n' || c == '\x0c' || c == '\r'

/-- If `pat` is an initial segment of `s`, return the remainder of `s`
after it. -/
def stripLead : GoStr → GoStr → Option GoStr
  | [], s => some s
  | _ :: _, [] => none
  | p :: ps, c :: cs => if p = c then stripLead ps cs else none

/-- Substring containment, as in the Go standard library string search
used by the monitor (`strings.Contains`). -/
def containsSub (pat : GoStr) : GoStr → Bool
  | [] => (stripLead pat ([] : GoStr)).isSome
  | c :: cs => (stripLead pat (c :: cs)).isSome || containsSub pat cs

/-- Numeric value of a digit string (the successful case of parsing the
captured digits). -/
def digitsVal (ds : GoStr) : ℕ :=
  ds.foldl (fun a c => a * 10 + (c.toNat - 48)) 0

/-- The literal `frame=` searched for by the monitor. -/
def frameSig : GoStr := ['f', 'r', 'a', 'm', 'e', '=']

/-- The literal `speed=` searched for by the monitor. -/
def speedSig : GoStr := ['s', 'p', 'e', 'e', 'd', '=']

/-- Leftmost match of the frame pattern of `monitorProgress`
(`app.go` line 498): the literal `frame=`, any amount of whitespace,
then one or more digits; returns the captured digit group's exact
value (the float parse of the capture, with its range check, is
applied by the poll tick, see `monitorTick`). -/
def findFrame : GoStr → Option ℕ
  | [] => none
  | c :: cs =>
    match stripLead frameSig (c :: cs) with
    | some rest =>
      if (rest.dropWhile isSpaceGo).takeWhile Char.isDigit = [] then findFrame cs
      else some (digitsVal ((rest.dropWhile isSpaceGo).takeWhile Char.isDigit))
    | none => findFrame cs

/-- Leftmost match of the speed pattern of `monitorProgress`
(`app.go` line 499): the literal `speed=` followed by one or more
non-whitespace characters; returns the captured token. -/
def findSpeed : GoStr → Option GoStr
  | [] => none
  | c :: cs =>
    match stripLead speedSig (c :: cs) with
    | some rest =>
      if rest.takeWhile (fun x => !(isSpaceGo x)) = [] then findSpeed cs
      else some (rest.takeWhile (fun x => !(isSpaceGo x)))
    | none => findSpeed cs

/-- Go `strings.TrimSpace`, on the ASCII whitespace occurring in the
encoder log. -/
def trimSpace (s : GoStr) : GoStr :=
  ((s.dropWhile isSpaceGo).reverse.dropWhile isSpaceGo).reverse

/-- Model of Go `float64` values reachable in the monitor: finite
values as exact rationals, plus the two infinities and NaN. -/
inductive GoFloat where
  | fin (q : ℚ)
  | posInf
  | negInf
  | nan
deriving DecidableEq, Repr

/-- Go float64 division `float64(currentFrame) / float64(totalFrames)`
(`app.go` line 541).  IEEE semantics: a nonzero value divided by zero
is a signed infinity, zero divided by zero is NaN; no fault occurs. -/
def fdiv (x : ℚ) (t : ℤ) : GoFloat :=
  if t = 0 then
    if 0 < x then .posInf else if x < 0 then .negInf else .nan
  else .fin (x / t)

/-- Multiplication by the literal 100 (`app.go` line 541). -/
def fmul100 : GoFloat → GoFloat
  | .fin q => .fin (q * 100)
  | .posInf => .posInf
  | .negInf => .negInf
  | .nan => .nan

/-- Go float64 strict greater-than; any comparison with NaN is false. -/
def fgt : GoFloat → GoFloat → Bool
  | .fin a, .fin b => a > b
  | .fin _, .posInf => false
  | .fin _, .negInf => true
  | .posInf, .fin _ => true
  | .posInf, .posInf => false
  | .posInf, .negInf => true
  | .negInf, _ => false
  | .nan, _ => false
  | _, .nan => false

/-- Go float64 less-or-equal; any comparison with NaN is false. -/
def fle : GoFloat → GoFloat → Bool
  | .fin a, .fin b => a ≤ b
  | .fin _, .posInf => true
  | .fin _, .negInf => false
  | .posInf, .fin _ => false
  | .posInf, .posInf => true
  | .posInf, .negInf => false
  | .negInf, .nan => false
  | .negInf, _ => true
  | .nan, _ => false
  | _, .nan => false

/-- The ceiling clamp of `monitorProgress` (`app.go` lines 542-544):
`if progress > 100 { progress = 100 }`. -/
def clamp100 (p : GoFloat) : GoFloat :=
  if fgt p (.fin 100) then .fin 100 else p

/-- The smallest value that the float parse of the digit capture
(`strconv.ParseFloat`, `app.go` line 533) rounds to +Inf, making it
return a range error: with round-to-nearest-even, every decimal value
of at least `2^1024 - 2^970` overflows the double range, whose
largest finite value is `2^1024 - 2^971`.  The monitor treats the
range error as a failed parse and skips the tick
(`app.go` lines 534-537). -/
def float64InfBound : ℚ := 2 ^ 1024 - 2 ^ 970

/-- A progress sample as emitted to the frontend: percentage and speed
factor. -/
structure Sample where
  progress : GoFloat
  speed : GoStr
deriving DecidableEq, Repr

/-- One poll tick of `monitorProgress` (`app.go` lines 528-557) applied
to the last line read on that tick: if the line contains `frame=` and
both telemetry patterns match, the digit capture is parsed as a float
(`strconv.ParseFloat`, `app.go` line 533) — the parse fails with a
range error for captures of `float64InfBound` or more, and the tick
is then skipped (`continue`, lines 534-537); otherwise the percentage
is computed, clamped and compared against the last emitted
percentage, and a sample is emitted only when it strictly exceeds it.
Returns the new last-emitted percentage and the emitted sample, if
any. -/
def monitorTick (tf : ℤ) (lp : GoFloat) (line : GoStr) :
    GoFloat × Option Sample :=
  if containsSub frameSig line then
    match findFrame line, findSpeed line with
    | some cf, some sp =>
      if (cf : ℚ) < float64InfBound then
        if fgt (clamp100 (fmul100 (fdiv (cf : ℚ) tf))) lp then
          (clamp100 (fmul100 (fdiv (cf : ℚ) tf)),
            some ⟨clamp100 (fmul100 (fdiv (cf : ℚ) tf)), trimSpace sp⟩)
        else (lp, none)
      else (lp, none)
    | _, _ => (lp, none)
  else (lp, none)

/-- The samples emitted by a run of poll ticks over the observed
sequence of last lines, threading the last-emitted percentage
(`var lastProgress float64`, `app.go` line 501). -/
def runTicks (tf : ℤ) : GoFloat → List GoStr → List Sample
  | _, [] => []
  | lp, l :: ls =>
    match monitorTick tf lp l with
    | (_, some s) => s :: runTicks tf s.progress ls
    | (_, none) => runTicks tf lp ls

/-- The final sample emitted when the done signal fires
(`app.go` lines 504-511): percentage fixed at 100, empty speed. -/
def finalSample : Sample := ⟨.fin 100, []⟩

/-- The whole observable sample sequence of one monitor run: the tick
samples followed by the final done-triggered sample. -/
def monitorRun (tf : ℤ) (lines : List GoStr) : List Sample :=
  runTicks tf (.fin 0) lines ++ [finalSample]

/-! ## Frontend queue driver (`App.svelte`) -/

/-- The media descriptor produced by the probe and consumed by the
frontend (`VideoInfo` in `app.go`). -/
structure VideoInfo where
  fullPath : GoStr
  duration : GoStr
  frameCount : ℤ
  codec : GoStr
  size : GoStr
deriving DecidableEq, Repr

/-- The queue state of the frontend (`App.svelte`): the running marker
`progressVideo` (null or the in-flight video) and the pending list
`selectedVideos`. -/
structure AppState where
  progressVideo : Option VideoInfo
  selectedVideos : List VideoInfo
deriving DecidableEq, Repr

/-- `updateProgressVideo` (`App.svelte` lines 117-123): if no video is
running and the pending list is non-empty, shift the head into the
running slot and start its conversion.  The boolean records whether a
job was started (`startConversion` invoked). -/
def updateProgressVideo (s : AppState) : AppState × Bool :=
  match s.progressVideo, s.selectedVideos with
  | none, v :: rest => (⟨some v, rest⟩, true)
  | _, _ => (s, false)

/-! ## Filename sanitization and output path derivation (`app.go`) -/

/-- The characters replaced by `sanitizeFileName`
(`app.go` lines 569-574). -/
def badChar (c : Char) : Bool :=
  c == '/' || c == '\\' || c == ':' || c == '*' || c == '?' ||
  c == '"' || c == '<' || c == '>' || c == '|'

/-- The per-character replacement of `sanitizeFileName`. -/
def sanMap (c : Char) : Char := if badChar c then '_' else c

/-- UTF-8 encoded size in bytes of one Unicode scalar value. -/
def utf8Size (c : Char) : ℕ :=
  if c.toNat < 128 then 1
  else if c.toNat < 2048 then 2
  else if c.toNat < 65536 then 3
  else 4

/-- Go `len` on a string: its UTF-8 byte length. -/
def utf8Len (s : GoStr) : ℕ := (s.map utf8Size).sum

/-- Go byte slicing `s[:n]` restricted to character boundaries: the
longest character prefix whose UTF-8 length is at most `n` bytes.
When byte `n` falls on a character boundary this is exactly the Go
slice; a slice cutting a character mid-sequence is not representable
in the scalar-value model. -/
def takeBytes : ℕ → GoStr → GoStr
  | _, [] => []
  | n, c :: cs =>
    if utf8Size c ≤ n then c :: takeBytes (n - utf8Size c) cs else []

/-- `sanitizeFileName` (`app.go` lines 566-583): replace each invalid
character by an underscore, then truncate to 200 bytes when the
byte length exceeds 200. -/
def sanitizeFileName (s : GoStr) : GoStr :=
  if 200 < utf8Len (s.map sanMap) then takeBytes 200 (s.map sanMap)
  else s.map sanMap

/-- Truncation as worded by the specification: cap at 200 characters.
Used only to compare the specified behaviour with the source. -/
def sanitizeSpecChars (s : GoStr) : GoStr :=
  if 200 < (s.map sanMap).length then (s.map sanMap).take 200
  else s.map sanMap

/-! Byte-level model of `sanitizeFileName`.  The Go byte slice
`fileName[:200]` can cut a UTF-8 character mid-sequence; the
character-level `takeBytes` cannot represent that cut, so the raw
byte representation is also modelled: `strings.Map` decodes the bytes
(an invalid byte becomes U+FFFD of width one) and re-encodes every
mapped character, and the slice keeps the first 200 bytes whatever
they are. -/

/-- The character replacement of `sanitizeFileName` on code points:
47 `/`, 92 `\`, 58 `:`, 42 `*`, 63 `?`, 34 `"`, 60 `<`, 62 `>` and
124 `|` map to 95 `_`. -/
def sanMapN (n : ℕ) : ℕ :=
  if n = 47 ∨ n = 92 ∨ n = 58 ∨ n = 42 ∨ n = 63 ∨ n = 34 ∨ n = 60 ∨ n = 62 ∨
    n = 124
  then 95 else n

/-- A UTF-8 continuation byte. -/
def contB (b : ℕ) : Bool := 0x80 ≤ b ∧ b < 0xC0

/-- Accepted second byte of a three-byte sequence, as in the Go
decoder's first-byte table: `E0` requires `A0..BF` (no overlong
encodings), `ED` requires `80..9F` (no surrogates). -/
def accept3 (b0 b1 : ℕ) : Bool :=
  if b0 = 0xE0 then 0xA0 ≤ b1 ∧ b1 ≤ 0xBF
  else if b0 = 0xED then 0x80 ≤ b1 ∧ b1 ≤ 0x9F
  else contB b1

/-- Accepted second byte of a four-byte sequence: `F0` requires
`90..BF` (no overlong encodings), `F4` requires `80..8F` (nothing
above U+10FFFF). -/
def accept4 (b0 b1 : ℕ) : Bool :=
  if b0 = 0xF0 then 0x90 ≤ b1 ∧ b1 ≤ 0xBF
  else if b0 = 0xF4 then 0x80 ≤ b1 ∧ b1 ≤ 0x8F
  else contB b1

/-- UTF-8 encoding of one code point. -/
def utf8Enc (n : ℕ) : List ℕ :=
  if n < 0x80 then [n]
  else if n < 0x800 then [0xC0 + n / 64, 0x80 + n % 64]
  else if n < 0x10000 then [0xE0 + n / 4096, 0x80 + n / 64 % 64, 0x80 + n % 64]
  else [0xF0 + n / 262144, 0x80 + n / 4096 % 64, 0x80 + n / 64 % 64,
    0x80 + n % 64]

/-- `strings.Map` with the sanitizer over raw UTF-8 bytes, as Go
executes it: each well-formed sequence (leading byte `00..7F`,
`C2..DF`, `E0..EF` or `F0..F4` with the accepted continuations) is
decoded, mapped and re-encoded; any other byte is decoded as U+FFFD
of width one and re-encoded as its three bytes, exactly what the Go
decoder reports for an invalid or truncated sequence.  The first
argument is recursion fuel: every step consumes at least one byte, so
a fuel of the byte count (as supplied by `mapSanBytes`) makes the
zero-fuel branch unreachable. -/
def mapSanGo : ℕ → List ℕ → List ℕ
  | 0, _ => []
  | _ + 1, [] => []
  | fuel + 1, b0 :: rest =>
    if b0 < 0x80 then utf8Enc (sanMapN b0) ++ mapSanGo fuel rest
    else if 0xC2 ≤ b0 ∧ b0 ≤ 0xDF then
      match rest with
      | b1 :: r2 =>
        if contB b1 then
          utf8Enc (sanMapN ((b0 - 0xC0) * 64 + (b1 - 0x80))) ++ mapSanGo fuel r2
        else utf8Enc 0xFFFD ++ mapSanGo fuel (b1 :: r2)
      | [] => utf8Enc 0xFFFD
    else if 0xE0 ≤ b0 ∧ b0 ≤ 0xEF then
      match rest with
      | b1 :: b2 :: r3 =>
        if accept3 b0 b1 ∧ contB b2 then
          utf8Enc (sanMapN ((b0 - 0xE0) * 4096 + (b1 - 0x80) * 64 +
            (b2 - 0x80))) ++ mapSanGo fuel r3
        else utf8Enc 0xFFFD ++ mapSanGo fuel (b1 :: b2 :: r3)
      | _ => utf8Enc 0xFFFD ++ mapSanGo fuel rest
    else if 0xF0 ≤ b0 ∧ b0 ≤ 0xF4 then
      match rest with
      | b1 :: b2 :: b3 :: r4 =>
        if accept4 b0 b1 ∧ contB b2 ∧ contB b3 then
          utf8Enc (sanMapN ((b0 - 0xF0) * 262144 + (b1 - 0x80) * 4096 +
            (b2 - 0x80) * 64 + (b3 - 0x80))) ++ mapSanGo fuel r4
        else utf8Enc 0xFFFD ++ mapSanGo fuel (b1 :: b2 :: b3 :: r4)
      | _ => utf8Enc 0xFFFD ++ mapSanGo fuel rest
    else utf8Enc 0xFFFD ++ mapSanGo fuel rest

/-- `strings.Map` with the sanitizer over the raw bytes of a name. -/
def mapSanBytes (bs : List ℕ) : List ℕ := mapSanGo bs.length bs

/-- `sanitizeFileName` (`app.go` lines 566-583) on the raw byte
representation: the mapped bytes, truncated by the byte slice
`fileName[:200]` when longer than 200 bytes. -/
def sanitizeFileNameBytes (bs : List ℕ) : List ℕ :=
  if 200 < (mapSanBytes bs).length then (mapSanBytes bs).take 200
  else mapSanBytes bs

/-- Go `filepath.Base` on slash-separated paths: strip trailing
separators and keep the part after the last separator. -/
def baseName (s : GoStr) : GoStr :=
  if s = [] then ['.']
  else
    let r := s.reverse.dropWhile (fun c => c == '/')
    if r = [] then ['/'] else (r.takeWhile (fun c => !(c == '/'))).reverse

/-- `strings.TrimSuffix(name, filepath.Ext(name))` on a base name
(`app.go` line 412): drop the suffix starting at the last dot, if
there is one. -/
def trimExt (s : GoStr) : GoStr :=
  let r := s.reverse
  let tail := r.takeWhile (fun c => !(c == '.'))
  if tail.length = r.length then s else (r.drop (tail.length + 1)).reverse

/-- The fixed output suffix appended by `ConvertVideo`
(`app.go` line 414). -/
def av1Suffix : GoStr := ['_', 'a', 'v', '1', '.', 'm', 'p', '4']

/-- `filepath.Join(outputFolder, name)` for a non-empty folder path
without trailing separator, as produced by the directory picker. -/
def joinPath (dir name : GoStr) : GoStr :=
  if dir = [] then name else dir ++ '/' :: name

/-- The output path computation of `ConvertVideo`
(`app.go` lines 411-414). -/
def deriveOutputPath (inputPath outputFolder : GoStr) : GoStr :=
  joinPath outputFolder (sanitizeFileName (trimExt (baseName inputPath)) ++ av1Suffix)

/-! ## Conversion supervisor (`ConvertVideo`, `app.go` lines 408-481) -/

/-- Lifecycle events emitted to the presentation layer. -/
inductive Ev where
  | progressEv (p : GoFloat) (speed : GoStr)
  | completeEv (path : GoStr)
  | errorEv (msg : GoStr)
  | nextEv
deriving DecidableEq, Repr

/-- The tick samples of one monitor run, as events. -/
def ticksAsEvents (tf : ℤ) (lines : List GoStr) : List Ev :=
  (runTicks tf (.fin 0) lines).map (fun s => Ev.progressEv s.progress s.speed)

/-- `ConvertVideo` (`app.go` lines 408-481).  Filesystem and process
outcomes are passed as explicit parameters (`none` meaning success):
`mkdirErr` for the output directory creation, `logErr` for the log
file creation, `startErr` for the encoder launch, `waitErr` for a
non-zero encoder exit.  `lines` is the sequence of last lines the
monitor observes before the done signal.  Returns the Go error result
together with the emitted event sequence.  On a non-zero exit the done
channel is closed before the error event is emitted, so the monitor
still emits its final 100% sample; the code does not order that sample
against the error event and no theorem below relies on their relative
order.  On success the one-second sleep between closing the done
channel and emitting the completion event orders the final 100% sample
before the completion event. -/
def convertVideo (inputPath outputFolder : GoStr) (tf : ℤ)
    (lines : List GoStr)
    (mkdirErr logErr startErr waitErr : Option GoStr) :
    Except GoStr Unit × List Ev :=
  let outputPath := deriveOutputPath inputPath outputFolder
  match mkdirErr with
  | some e => (.error ("failed to create output directory: ".toList ++ e), [])
  | none =>
  match logErr with
  | some e => (.error ("failed to create log file: ".toList ++ e), [])
  | none =>
  match startErr with
  | some e => (.error ("failed to start FFmpeg: ".toList ++ e), [])
  | none =>
  match waitErr with
  | some e =>
    (.error ("FFmpeg error: ".toList ++ e),
      ticksAsEvents tf lines ++ [Ev.errorEv e, Ev.progressEv (.fin 100) []])
  | none =>
    (.ok (),
      ticksAsEvents tf lines ++
        [Ev.progressEv (.fin 100) [], Ev.completeEv outputPath, Ev.nextEv])

/-! ## Media prober (`getVideoInfo`, `app.go` lines 292-350) -/

/-- One entry of the `streams` array of the probe output. -/
structure StreamInfo where
  codecName : GoStr
  nbFrames : GoStr
  avgFrameRate : GoStr
deriving DecidableEq, Repr

/-- The `format` object of the probe output. -/
structure ProbeFormat where
  duration : GoStr
  size : GoStr
deriving DecidableEq, Repr

/-- The parsed probe output. -/
structure ProbeResult where
  streams : List StreamInfo
  format : ProbeFormat
deriving DecidableEq, Repr

/-- Go `strconv.Atoi` with the error ignored and a zero default, as in
`app.go` line 339: optional sign followed by one or more digits. -/
def goAtoi (s : GoStr) : ℤ :=
  match s with
  | '-' :: ds => if ds ≠ [] ∧ ds.all Char.isDigit then -(digitsVal ds : ℤ) else 0
  | '+' :: ds => if ds ≠ [] ∧ ds.all Char.isDigit then (digitsVal ds : ℤ) else 0
  | ds => if ds ≠ [] ∧ ds.all Char.isDigit then (digitsVal ds : ℤ) else 0

/-- Go `strconv.ParseFloat` with the error ignored and a zero default,
on the decimal forms the probe emits (optional sign, digits, optional
fraction; other forms, such as fraction-slash frame rates, fail and
default to zero). -/
def goParseFloat (s : GoStr) : ℚ :=
  let core : GoStr → Option ℚ := fun ds =>
    let intPart := ds.takeWhile Char.isDigit
    let rest := ds.drop intPart.length
    match rest with
    | [] => if intPart = [] then none else some (digitsVal intPart : ℚ)
    | '.' :: fr =>
      if intPart = [] ∧ fr = [] then none
      else if fr.all Char.isDigit then
        some ((digitsVal intPart : ℚ) +
          (digitsVal fr : ℚ) / ((10 : ℚ) ^ fr.length))
      else none
    | _ => none
  match s with
  | '-' :: ds => ((core ds).map (fun q => -q)).getD 0
  | '+' :: ds => (core ds).getD 0
  | ds => (core ds).getD 0

/-- Go `int(x)` on a float64: truncation toward zero. -/
def truncQ (q : ℚ) : ℤ := if 0 ≤ q then ⌊q⌋ else -⌊-q⌋

/-- Decimal digits of a natural number. -/
def natDigits (n : ℕ) : GoStr := (Nat.toDigits 10 n)

/-- `%02d` formatting of a non-negative integer. -/
def pad2 (n : ℤ) : GoStr :=
  let m := n.natAbs
  let sign : GoStr := if n < 0 then ['-'] else []
  sign ++ (if m < 10 then '0' :: natDigits m else natDigits m)

/-- The timecode synthesised by `getVideoInfo`
(`app.go` lines 332-337): `HH:MM:SS:FF` from the duration in seconds
and the average frame rate, with Go integer division and modulus
(truncated toward zero, remainder with the sign of the dividend). -/
def timecodeOf (duration frameRate : ℚ) : GoStr :=
  let t := truncQ duration
  let hours := Int.tdiv t 3600
  let minutes := Int.tdiv (Int.tmod t 3600) 60
  let seconds := Int.tmod t 60
  let frames := truncQ ((duration - (t : ℚ)) * frameRate)
  pad2 hours ++ ':' :: pad2 minutes ++ ':' :: pad2 seconds ++ ':' :: pad2 frames

/-- `%.2f MB` size formatting of `getVideoInfo` (`app.go` line 348),
with decimal rounding half-to-even on the exact rational. -/
def fmtMB (q : ℚ) : GoStr :=
  let c := q * 100
  let fl := ⌊c⌋
  let n : ℤ := if c - (fl : ℚ) > 1 / 2 then fl + 1
    else if c - (fl : ℚ) < 1 / 2 then fl
    else if fl % 2 = 0 then fl else fl + 1
  let m := n.natAbs
  let sign : GoStr := if n < 0 then ['-'] else []
  sign ++ natDigits (m / 100) ++ '.' :: pad2 ((m % 100 : ℕ) : ℤ) ++ " MB".toList

/-- `getVideoInfo` (`app.go` lines 292-350).  `runErr` is the ffprobe
process outcome (`some` holds the process error text of a non-zero
exit or launch failure); `parsed` is the result of decoding standard
output as JSON into the probe schema (`none` when decoding fails).
Fails exactly on process error, decode failure, or an empty `streams`
array; otherwise builds the media descriptor. -/
def getVideoInfo (filePath : GoStr) (runErr : Option GoStr)
    (parsed : Option ProbeResult) : Except GoStr VideoInfo :=
  match runErr with
  | some e => .error ("FFprobe error: ".toList ++ e)
  | none =>
  match parsed with
  | none => .error "error unmarshalling JSON".toList
  | some r =>
    if r.streams = [] then .error "no streams found in the video file".toList
    else
      let s0 := r.streams.headD ⟨[], [], []⟩
      let durationInSeconds := goParseFloat r.format.duration
      let frameRate := goParseFloat s0.avgFrameRate
      let sizeInBytes := goParseFloat r.format.size
      .ok
        { fullPath := filePath
          duration := timecodeOf durationInSeconds frameRate
          frameCount := goAtoi s0.nbFrames
          codec := s0.codecName
          size := fmtMB (sizeInBytes / 1024 / 1024) }

/-! ## Bounded-window tail read (`monitorProgress`, `app.go` lines 512-524) -/

/-- The seek of each poll tick, `file.Seek(-1024, 2)`, with its error
ignored as in the source: when the file is at least 1024 bytes long
the position becomes `size - 1024`; otherwise the seek fails
(the target offset would be negative) and the position is left
unchanged, per POSIX lseek semantics. -/
def seekFromEnd (pos size : ℕ) : ℕ :=
  if 1024 ≤ size then size - 1024 else pos

/-- The seek as worded by the specification: a seek before byte 0 is
clamped to the start of the file.  Used only to compare the specified
behaviour with the source. -/
def seekClamped (_pos size : ℕ) : ℕ :=
  if 1024 ≤ size then size - 1024 else 0

/-- `bufio.ScanLines` tokenisation: split on newline, dropping one
trailing carriage return per line; a final unterminated line is also
returned, but no empty token is produced after a trailing newline. -/
def splitLines (s : GoStr) : List GoStr :=
  let dropCR : GoStr → GoStr := fun l =>
    match l.reverse with
    | '\r' :: r => r.reverse
    | _ => l
  let parts := (s.splitOn '\n').map dropCR
  if s.getLast? = some '\n' then parts.dropLast else parts

/-- The scanner loop `for scanner.Scan() { lastLine = scanner.Text() }`
of the monitor: the last token, or the empty string when there is
none. -/
def lastLineOf (chunk : GoStr) : GoStr :=
  (splitLines chunk).foldl (fun _ l => l) []

/-- One tick's read phase on a log file with content `content` and
current file position `pos`: seek (error ignored), then scan forward
to the end of the file keeping the last line.  Returns the last line
read and the new file position. -/
def monitorReadTick (content : GoStr) (pos : ℕ) : GoStr × ℕ :=
  (lastLineOf (content.drop (seekFromEnd pos content.length)), content.length)

/-! ## Event classifiers and concrete test data -/

/-- Recognises a completion event. -/
def isCompleteEv : Ev → Bool
  | .completeEv _ => true
  | _ => false

/-- Recognises a next-job event. -/
def isNextEv : Ev → Bool
  | .nextEv => true
  | _ => false

/-- Recognises an error event. -/
def isErrorEv : Ev → Bool
  | .errorEv _ => true
  | _ => false

/-- Recognises the done-triggered terminal sample: progress fixed at
100 with an empty speed factor. -/
def isFinal100 (e : Ev) : Bool :=
  e = Ev.progressEv (.fin 100) []

/-- The sample log line of the specification scenario. -/
def exLine : GoStr := "frame=  50 fps=30 q=28 size=... speed=1.2x".toList

/-- A concrete media descriptor used to exercise the queue model. -/
def vA : VideoInfo := ⟨['A'], [], 100, [], []⟩

/-- A name of 150 two-byte characters (UTF-8 length 300). -/
def cexName : GoStr := List.replicate 150 'Ā'

/-- The raw bytes of 199 `a` followed by `Ā` (`C4 80`): 201 bytes, so
the 200-byte slice cuts the final character after its lead byte. -/
def cexBytes : List ℕ := List.replicate 199 97 ++ [0xC4, 0x80]

/-- A log line whose frame capture is 1 followed by 309 zeros: the
value `10^309` is beyond the double range. -/
def overLine : GoStr :=
  "frame=1".toList ++ List.replicate 309 '0' ++ " speed=1.2x".toList

/-- A log file shorter than the 1024-byte window. -/
def smallLog : GoStr := "frame= 1\n".toList

/-! ## Helper lemmas -/

theorem sanMap_idem (c : Char) : sanMap (sanMap c) = sanMap c := by
  have h_ : badChar '_' = false := by decide
  by_cases h : badChar c
  · simp [sanMap, h, h_]
  · simp [sanMap, h]

theorem badChar_sanMap (c : Char) : badChar (sanMap c) = false := by
  unfold sanMap
  cases hb : badChar c
  · simpa using hb
  · exact (by decide : badChar '_' = false)

theorem mem_takeBytes {c : Char} :
    ∀ {n : ℕ} {l : GoStr}, c ∈ takeBytes n l → c ∈ l := by
  intro n l
  induction l generalizing n with
  | nil => simp [takeBytes]
  | cons a as ih =>
    intro h
    rw [takeBytes] at h
    split at h
    · rcases List.mem_cons.mp h with h | h
      · exact h ▸ List.mem_cons_self a as
      · exact List.mem_cons_of_mem a (ih h)
    · cases h

theorem utf8Len_takeBytes_le : ∀ (n : ℕ) (l : GoStr), utf8Len (takeBytes n l) ≤ n := by
  intro n l
  induction l generalizing n with
  | nil => simp [takeBytes, utf8Len]
  | cons a as ih =>
    rw [takeBytes]
    split
    · rename_i h
      have := ih (n - utf8Size a)
      simp only [utf8Len, List.map_cons, List.sum_cons] at *
      omega
    · simp [utf8Len]

theorem map_fix_of_mem {α : Type} {f : α → α} :
    ∀ (l : List α), (∀ c ∈ l, f c = c) → l.map f = l := by
  intro l h
  induction l with
  | nil => rfl
  | cons a as ih =>
    simp only [List.map_cons]
    rw [h a (List.mem_cons_self a as), ih (fun c hc => h c (List.mem_cons_of_mem a hc))]

theorem map_sanMap_map_sanMap (s : GoStr) :
    (s.map sanMap).map sanMap = s.map sanMap := by
  rw [List.map_map]
  induction s with
  | nil => rfl
  | cons a as ih => simp only [List.map_cons, Function.comp_apply, sanMap_idem, ih]

theorem sanMap_ascii {c : Char} (h : c.toNat < 128) : (sanMap c).toNat < 128 := by
  by_cases hb : badChar c
  · simp [sanMap, hb]
  · simpa [sanMap, hb] using h

theorem utf8Len_ascii : ∀ (l : GoStr), (∀ c ∈ l, c.toNat < 128) → utf8Len l = l.length := by
  intro l h
  induction l with
  | nil => rfl
  | cons a as ih =>
    have ha : utf8Size a = 1 := by
      simp [utf8Size, h a (List.mem_cons_self a as)]
    simp only [utf8Len, List.map_cons, List.sum_cons, List.length_cons] at *
    rw [ha, ih (fun c hc => h c (List.mem_cons_of_mem a hc))]
    omega

theorem takeBytes_ascii : ∀ (n : ℕ) (l : GoStr), (∀ c ∈ l, c.toNat < 128) →
    takeBytes n l = l.take n := by
  intro n l
  induction l generalizing n with
  | nil => simp [takeBytes]
  | cons a as ih =>
    intro h
    have ha : utf8Size a = 1 := by
      simp [utf8Size, h a (List.mem_cons_self a as)]
    rw [takeBytes, ha]
    cases n with
    | zero => simp
    | succ k =>
      rw [if_pos (by omega)]
      simp only [Nat.add_sub_cancel, List.take_succ_cons]
      rw [ih k (fun c hc => h c (List.mem_cons_of_mem a hc))]

theorem utf8Size_sanMap (c : Char) : utf8Size (sanMap c) = utf8Size c := by
  by_cases h : badChar c
  · have hc : c.toNat < 128 := by
      simp only [badChar, Bool.or_eq_true, beq_iff_eq] at h
      rcases h with ((((((((h | h) | h) | h) | h) | h) | h) | h) | h) <;> subst h <;> decide
    simp only [sanMap, h, if_true]
    simp only [utf8Size, hc, if_pos]
    decide
  · simp [sanMap, h]

/-! ## C10: sanitization idempotence -/

theorem sanMapN_idem (n : ℕ) : sanMapN (sanMapN n) = sanMapN n := by
  by_cases h : n = 47 ∨ n = 92 ∨ n = 58 ∨ n = 42 ∨ n = 63 ∨ n = 34 ∨ n = 60 ∨
    n = 62 ∨ n = 124
  · have h1 : sanMapN n = 95 := by rw [sanMapN, if_pos h]
    rw [h1]
    decide
  · have h1 : sanMapN n = n := by rw [sanMapN, if_neg h]
    rw [h1]
    exact h1

theorem sanMapN_lt_128 {n : ℕ} (h : n < 128) : sanMapN n < 128 := by
  unfold sanMapN
  split
  · decide
  · exact h

theorem mapSanGo_ascii : ∀ (fuel : ℕ) (bs : List ℕ), bs.length ≤ fuel →
    (∀ b ∈ bs, b < 128) → mapSanGo fuel bs = bs.map sanMapN := by
  intro fuel
  induction fuel with
  | zero =>
    intro bs hlen _
    have hnil : bs = [] := List.eq_nil_of_length_eq_zero (Nat.le_zero.mp hlen)
    subst hnil
    rfl
  | succ f ih =>
    intro bs hlen hb
    cases bs with
    | nil => rfl
    | cons b0 rest =>
      have h0 : b0 < 0x80 := hb b0 (List.mem_cons_self b0 rest)
      have hlen' : rest.length ≤ f := by
        simp only [List.length_cons] at hlen
        omega
      simp only [mapSanGo]
      rw [if_pos h0,
        show utf8Enc (sanMapN b0) = [sanMapN b0] from by
          unfold utf8Enc; rw [if_pos (sanMapN_lt_128 h0)],
        ih rest hlen' (fun b hbm => hb b (List.mem_cons_of_mem b0 hbm))]
      rfl

theorem mapSanBytes_ascii {bs : List ℕ} (hb : ∀ b ∈ bs, b < 128) :
    mapSanBytes bs = bs.map sanMapN :=
  mapSanGo_ascii bs.length bs le_rfl hb

set_option maxRecDepth 100000 in
/-- C10 counterexample: Go `sanitizeFileName` is not idempotent.  On
the bytes of 199 `a` followed by `Ā` (201 bytes) the 200-byte slice
cuts the final character after its lead byte `C4`; on the second
application the dangling `C4` is an invalid sequence, which the map
rewrites to the three bytes of U+FFFD, and re-truncation leaves the
name ending in `EF` instead — a different string. -/
theorem claim_C10_counterexample :
    sanitizeFileNameBytes (sanitizeFileNameBytes cexBytes) ≠
      sanitizeFileNameBytes cexBytes ∧
    sanitizeFileNameBytes cexBytes = List.replicate 199 97 ++ [0xC4] ∧
    sanitizeFileNameBytes (sanitizeFileNameBytes cexBytes) =
      List.replicate 199 97 ++ [0xEF] ∧
    cexBytes =
      ((List.replicate 199 'a' ++ ['Ā']).map (fun c => utf8Enc c.toNat)).flatten
  := by decide

/-- C10 (amended): the sanitizer is idempotent whenever its 200-byte
truncation does not cut a character mid-sequence: on the raw bytes it
is idempotent for every ASCII name, and in the character-level model
— where the slice always falls on a character boundary — it is
idempotent for every name, because the replacement character `_` is
not itself in the replaced set and a result of at most 200 bytes is
unchanged by truncation.  When byte 200 falls inside a multi-byte
character the program is not idempotent (see the counterexample): the
dangling bytes are rewritten to U+FFFD by the second pass. -/
theorem claim_C10_boundary_idempotent :
    (∀ bs : List ℕ, (∀ b ∈ bs, b < 128) →
        sanitizeFileNameBytes (sanitizeFileNameBytes bs) =
          sanitizeFileNameBytes bs) ∧
    (∀ s : GoStr, sanitizeFileName (sanitizeFileName s) = sanitizeFileName s) := by
  constructor
  · intro bs h
    have hm : ∀ b ∈ mapSanBytes bs, b < 128 := by
      rw [mapSanBytes_ascii h]
      intro b hbm
      rcases List.mem_map.mp hbm with ⟨a, ha, rfl⟩
      exact sanMapN_lt_128 (h a ha)
    have hfixm : ∀ b ∈ mapSanBytes bs, sanMapN b = b := by
      rw [mapSanBytes_ascii h]
      intro b hbm
      rcases List.mem_map.mp hbm with ⟨a, _, rfl⟩
      exact sanMapN_idem a
    unfold sanitizeFileNameBytes
    by_cases h200 : 200 < (mapSanBytes bs).length
    · rw [if_pos h200]
      have ht2 : mapSanBytes ((mapSanBytes bs).take 200) =
          (mapSanBytes bs).take 200 := by
        rw [mapSanBytes_ascii (fun b hbm => hm b (List.take_subset 200 _ hbm))]
        exact map_fix_of_mem _ (fun b hbm => hfixm b (List.take_subset 200 _ hbm))
      rw [ht2, if_neg (not_lt.mpr (List.length_take_le 200 (mapSanBytes bs)))]
    · rw [if_neg h200]
      have h2 : mapSanBytes (mapSanBytes bs) = mapSanBytes bs := by
        rw [mapSanBytes_ascii hm]
        exact map_fix_of_mem _ hfixm
      rw [h2, if_neg h200]
  · intro s
    unfold sanitizeFileName
    by_cases h200 : 200 < utf8Len (s.map sanMap)
    · rw [if_pos h200]
      have hfix : (takeBytes 200 (s.map sanMap)).map sanMap
          = takeBytes 200 (s.map sanMap) := by
        apply map_fix_of_mem
        intro c hc
        rcases List.mem_map.mp (mem_takeBytes hc) with ⟨a, _, rfl⟩
        exact sanMap_idem a
      rw [hfix, if_neg (not_lt.mpr (utf8Len_takeBytes_le 200 (s.map sanMap)))]
    · rw [if_neg h200, map_sanMap_map_sanMap, if_neg h200]

/-- C10 witness: byte-level idempotence applied at a concrete ASCII
name. -/
theorem claim_C10_boundary_idempotent_witness :
    sanitizeFileNameBytes (sanitizeFileNameBytes [97, 58, 98]) =
      sanitizeFileNameBytes [97, 58, 98] :=
  claim_C10_boundary_idempotent.1 [97, 58, 98] (by decide)

/-! ## C9: output file path derivation -/

set_option maxRecDepth 40000 in
/-- C9 counterexample: the claim says the sanitized name is truncated
to 200 characters, but the source truncates to 200 bytes of the UTF-8
encoding (`len` and slicing in Go count bytes).  A name of 150
two-byte characters (300 bytes, at most 200 characters) is truncated
by the source to 100 characters, while truncation to 200 characters
would leave it unchanged. -/
theorem claim_C9_counterexample :
    sanitizeFileName cexName ≠ sanitizeSpecChars cexName ∧
    (sanitizeFileName cexName).length = 100 ∧
    (sanitizeSpecChars cexName).length = 150 := by decide

set_option maxRecDepth 40000 in
/-- C9 (amended): the output path is the destination directory joined
with the sanitized extension-stripped base name plus the fixed suffix
`_av1.mp4`, where sanitization replaces every occurrence of the nine
invalid characters with an underscore and truncates to 200 bytes of
the UTF-8 encoding — which coincides with 200 characters exactly when
the name is ASCII.  Concretely: no invalid character survives
sanitization; `/in/A.mov` with destination `/out` yields
`/out/A_av1.mp4`; a 250-character ASCII name is truncated to 200
characters. -/
theorem claim_C9_output_derivation :
    (∀ s : GoStr, (∀ c ∈ s, c.toNat < 128) →
      sanitizeFileName s = sanitizeSpecChars s) ∧
    (∀ s : GoStr, ∀ c ∈ sanitizeFileName s, badChar c = false) ∧
    deriveOutputPath "/in/A.mov".toList "/out".toList = "/out/A_av1.mp4".toList ∧
    (sanitizeFileName (List.replicate 250 'a')).length = 200 := by
  refine ⟨?_, ?_, by decide, by decide⟩
  · intro s h
    have hm : ∀ c ∈ s.map sanMap, c.toNat < 128 := by
      intro c hc
      rcases List.mem_map.mp hc with ⟨a, ha, rfl⟩
      exact sanMap_ascii (h a ha)
    unfold sanitizeFileName sanitizeSpecChars
    rw [utf8Len_ascii _ hm, takeBytes_ascii _ _ hm]
  · intro s c hc
    have hmem : c ∈ s.map sanMap := by
      unfold sanitizeFileName at hc
      split at hc
      · exact mem_takeBytes hc
      · exact hc
    rcases List.mem_map.mp hmem with ⟨a, _, rfl⟩
    exact badChar_sanMap a

/-- C9 witness: the amended theorem applied to a concrete ASCII name. -/
theorem claim_C9_output_derivation_witness :
    sanitizeFileName "a:b".toList = sanitizeSpecChars "a:b".toList :=
  claim_C9_output_derivation.1 "a:b".toList (by decide)

/-! ## C1: at-most-one-running queue invariant -/

/-- C1: `updateProgressVideo` starts a job only if no job is running
and the pending list is non-empty; when it does start one, calling it
again with no intervening completion is a no-op returning
`started = false`; and while the running marker is set it never starts
a job and leaves the state unchanged. -/
theorem claim_C1_queue_advance (s : AppState) :
    ((updateProgressVideo s).2 = true →
      s.progressVideo = none ∧ s.selectedVideos ≠ [] ∧
      updateProgressVideo (updateProgressVideo s).1 =
        ((updateProgressVideo s).1, false)) ∧
    (∀ v, s.progressVideo = some v → updateProgressVideo s = (s, false)) := by
  rcases s with ⟨pv, sv⟩
  cases pv <;> cases sv <;> simp [updateProgressVideo]

/-- C1 witness: from the state with no running job and one pending
job, the first call starts it and the second call is a no-op. -/
theorem claim_C1_queue_advance_witness :
    updateProgressVideo (updateProgressVideo ⟨none, [vA]⟩).1 =
      ((updateProgressVideo ⟨none, [vA]⟩).1, false) :=
  ((claim_C1_queue_advance ⟨none, [vA]⟩).1 (by decide)).2.2

/-! ## Monitor lemmas -/

theorem dropWhile_eq_self_of_not {p : Char → Bool} :
    ∀ (l : GoStr), (∀ c ∈ l, p c = false) → l.dropWhile p = l := by
  intro l h
  cases l with
  | nil => rfl
  | cons a as =>
    rw [List.dropWhile_cons, if_neg (by simp [h a (List.mem_cons_self a as)])]

theorem trimSpace_eq_self {l : GoStr} (h : ∀ c ∈ l, isSpaceGo c = false) :
    trimSpace l = l := by
  unfold trimSpace
  rw [dropWhile_eq_self_of_not l h,
    dropWhile_eq_self_of_not l.reverse (fun c hc => h c (List.mem_reverse.mp hc)),
    List.reverse_reverse]

theorem findSpeed_spec : ∀ (line sp : GoStr), findSpeed line = some sp →
    sp ≠ [] ∧ ∀ c ∈ sp, isSpaceGo c = false := by
  intro line
  induction line with
  | nil => intro sp h; simp [findSpeed] at h
  | cons c cs ih =>
    intro sp h
    rw [findSpeed] at h
    split at h
    · split at h
      · exact ih sp h
      · rename_i htok
        rcases Option.some.inj h with rfl
        refine ⟨htok, fun x hx => ?_⟩
        have := List.mem_takeWhile_imp hx
        simpa using this
    · exact ih sp h

theorem findFrame_some_contains : ∀ (line : GoStr) (cf : ℕ),
    findFrame line = some cf → containsSub frameSig line = true := by
  intro line
  induction line with
  | nil => intro cf h; simp [findFrame] at h
  | cons c cs ih =>
    intro cf h
    rw [findFrame] at h
    rw [containsSub]
    split at h
    · rename_i rest hs
      rw [hs]
      simp
    · rename_i hs
      rw [hs]
      simpa using ih cf h

theorem clamp100_fin (q : ℚ) : clamp100 (.fin q) = .fin (min q 100) := by
  by_cases h : (100 : ℚ) < q
  · simp [clamp100, fgt, h, min_eq_right h.le]
  · simp [clamp100, fgt, h, min_eq_left (not_lt.mp h)]

theorem clamp100_posInf : clamp100 .posInf = .fin 100 := rfl

theorem fgt_nan_left (x : GoFloat) : fgt .nan x = false := by
  cases x <;> rfl

theorem fgt_negInf_left (x : GoFloat) : fgt .negInf x = false := by
  cases x <;> rfl

theorem clamp_fgt_fin (v lp : GoFloat) (h : fgt (clamp100 v) lp = true) :
    ∃ q : ℚ, clamp100 v = .fin q ∧ q ≤ 100 := by
  cases v with
  | fin q => exact ⟨min q 100, clamp100_fin q, min_le_right q 100⟩
  | posInf => exact ⟨100, rfl, le_refl _⟩
  | negInf =>
    rw [show clamp100 .negInf = .negInf from rfl, fgt_negInf_left] at h
    cases h
  | nan =>
    rw [show clamp100 .nan = .nan from rfl, fgt_nan_left] at h
    cases h

theorem tick_emit {tf : ℤ} {lp : GoFloat} {line : GoStr} {s : Sample}
    (h : (monitorTick tf lp line).2 = some s) :
    fgt s.progress lp = true ∧ (∃ q : ℚ, s.progress = .fin q ∧ q ≤ 100) ∧
      s.speed ≠ [] := by
  unfold monitorTick at h
  split at h
  case isFalse => exact Option.noConfusion h
  case isTrue =>
    split at h
    · rename_i cf sp h1 h2
      by_cases hrange : (cf : ℚ) < float64InfBound
      · rw [if_pos hrange] at h
        by_cases hf : fgt (clamp100 (fmul100 (fdiv (cf : ℚ) tf))) lp = true
        · rw [if_pos hf] at h
          have hs' := Option.some.inj h
          subst hs'
          refine ⟨hf, clamp_fgt_fin _ _ hf, ?_⟩
          rcases findSpeed_spec line sp h2 with ⟨hne, hns⟩
          rw [trimSpace_eq_self hns]
          exact hne
        · rw [if_neg hf] at h
          exact Option.noConfusion h
      · rw [if_neg hrange] at h
        exact Option.noConfusion h
    all_goals exact Option.noConfusion h

theorem fgt_trans_fin {a c : GoFloat} {q : ℚ} (h1 : fgt (.fin q) a = true)
    (h2 : fgt c (.fin q) = true) : fgt c a = true := by
  cases a <;> cases c <;> simp [fgt] at h1 h2 ⊢
  exact lt_trans h1 h2

theorem fgt_fle {a b : GoFloat} (h : fgt b a = true) : fle a b = true := by
  cases a <;> cases b <;> simp [fgt, fle] at h ⊢
  exact le_of_lt h

theorem runTicks_all {tf : ℤ} : ∀ (lines : List GoStr) (lp : GoFloat),
    ∀ s ∈ runTicks tf lp lines,
      fgt s.progress lp = true ∧ (∃ q : ℚ, s.progress = .fin q ∧ q ≤ 100) ∧
        s.speed ≠ [] := by
  intro lines
  induction lines with
  | nil => intro lp s hs; simp [runTicks] at hs
  | cons l ls ih =>
    intro lp s hs
    rw [runTicks] at hs
    rcases hmt : monitorTick tf lp l with ⟨f, os⟩
    rw [hmt] at hs
    cases os with
    | none => exact ih lp s hs
    | some s0 =>
      have he := @tick_emit tf lp l s0 (by rw [hmt])
      rcases List.mem_cons.mp hs with rfl | hs'
      · exact he
      · rcases ih s0.progress s hs' with ⟨hgt, hfin, hsp⟩
        rcases he with ⟨hgt0, ⟨q0, hq0, _⟩, _⟩
        rw [hq0] at hgt0 hgt
        exact ⟨fgt_trans_fin hgt0 hgt, hfin, hsp⟩

theorem runTicks_chain {tf : ℤ} : ∀ (lines : List GoStr) (lp : GoFloat),
    List.Chain' (fun a b : Sample => fgt b.progress a.progress = true)
      (runTicks tf lp lines) := by
  intro lines
  induction lines with
  | nil => intro lp; simp [runTicks]
  | cons l ls ih =>
    intro lp
    rw [runTicks]
    rcases hmt : monitorTick tf lp l with ⟨f, os⟩
    cases os with
    | none => exact ih lp
    | some s0 =>
      refine List.chain'_cons'.mpr ⟨?_, ih s0.progress⟩
      intro y hy
      exact (runTicks_all ls s0.progress y (List.mem_of_mem_head? hy)).1

theorem monitorTick_none {tf : ℤ} {lp : GoFloat} {line : GoStr}
    (h : findFrame line = none ∨ findSpeed line = none) :
    monitorTick tf lp line = (lp, none) := by
  unfold monitorTick
  split
  case isFalse => rfl
  case isTrue =>
    rcases hx : findFrame line with _ | cf <;> rcases hy : findSpeed line with _ | sp
    · rfl
    · rfl
    · rfl
    · rcases h with h | h
      · rw [hx] at h; exact Option.noConfusion h
      · rw [hy] at h; exact Option.noConfusion h

theorem monitorTick_shape {tf : ℤ} {lp : GoFloat} {line : GoStr} {cf : ℕ}
    {sp : GoStr} (h1 : findFrame line = some cf) (h2 : findSpeed line = some sp) :
    monitorTick tf lp line =
      if (cf : ℚ) < float64InfBound then
        if fgt (clamp100 (fmul100 (fdiv (cf : ℚ) tf))) lp then
          (clamp100 (fmul100 (fdiv (cf : ℚ) tf)),
            some ⟨clamp100 (fmul100 (fdiv (cf : ℚ) tf)), trimSpace sp⟩)
        else (lp, none)
      else (lp, none) := by
  unfold monitorTick
  rw [if_pos (findFrame_some_contains line cf h1), h1, h2]

theorem monitorTick_overflow {tf : ℤ} {lp : GoFloat} {line : GoStr} {cf : ℕ}
    {sp : GoStr} (h1 : findFrame line = some cf) (h2 : findSpeed line = some sp)
    (hr : float64InfBound ≤ (cf : ℚ)) :
    monitorTick tf lp line = (lp, none) := by
  rw [monitorTick_shape h1 h2, if_neg (not_lt.mpr hr)]

theorem monitorTick_some {tf : ℤ} {lp : GoFloat} {line : GoStr} {cf : ℕ}
    {sp : GoStr} (htf : tf ≠ 0) (hrange : (cf : ℚ) < float64InfBound)
    (h1 : findFrame line = some cf) (h2 : findSpeed line = some sp) :
    monitorTick tf lp line =
      if fgt (.fin (min ((cf : ℚ) / (tf : ℚ) * 100) 100)) lp then
        (.fin (min ((cf : ℚ) / (tf : ℚ) * 100) 100),
          some ⟨.fin (min ((cf : ℚ) / (tf : ℚ) * 100) 100), sp⟩)
      else (lp, none) := by
  rw [monitorTick_shape h1 h2, if_pos hrange]
  have hcl : clamp100 (fmul100 (fdiv (cf : ℚ) tf)) =
      .fin (min ((cf : ℚ) / (tf : ℚ) * 100) 100) := by
    rw [show fdiv (cf : ℚ) tf = .fin ((cf : ℚ) / (tf : ℚ)) from by
        unfold fdiv; rw [if_neg htf],
      show fmul100 (.fin ((cf : ℚ) / (tf : ℚ))) =
        .fin ((cf : ℚ) / (tf : ℚ) * 100) from rfl,
      clamp100_fin]
  rw [hcl, trimSpace_eq_self (findSpeed_spec line sp h2).2]

theorem fifty_lt_bound : ((50 : ℕ) : ℚ) < float64InfBound := by
  unfold float64InfBound
  norm_num

theorem monitorTick_example :
    monitorTick 100 (.fin 0) exLine = (.fin 50, some ⟨.fin 50, "1.2x".toList⟩) := by
  rw [@monitorTick_some 100 (.fin 0) exLine 50 "1.2x".toList
    (by decide) fifty_lt_bound rfl rfl]
  have hv : ((50 : ℕ) : ℚ) / ((100 : ℤ) : ℚ) * 100 = 50 := by
    push_cast
    norm_num
  have hgt : fgt (GoFloat.fin 50) (GoFloat.fin 0) = true := rfl
  rw [hv, min_eq_left (by norm_num : (50 : ℚ) ≤ 100), if_pos hgt]

/-! ## C2: monotone progress emission -/

/-- C2: a tick emits a sample only when its percentage strictly
exceeds the last emitted percentage, so the tick-emitted sample
sequence is strictly increasing (hence monotonically non-decreasing
with no duplicate consecutive values before the final sample), and
the whole run including the final done-triggered 100% sample is
non-decreasing. -/
theorem claim_C2_monotone_progress :
    (∀ (tf : ℤ) (lp : GoFloat) (line : GoStr) (s : Sample),
        (monitorTick tf lp line).2 = some s → fgt s.progress lp = true) ∧
    (∀ (tf : ℤ) (lines : List GoStr),
        List.Chain' (fun a b : Sample => fgt b.progress a.progress = true)
          (runTicks tf (.fin 0) lines)) ∧
    (∀ (tf : ℤ) (lines : List GoStr),
        List.Chain' (fun a b : Sample => fle a.progress b.progress = true)
          (monitorRun tf lines)) := by
  refine ⟨fun tf lp line s h => (tick_emit h).1,
    fun tf lines => runTicks_chain lines _, ?_⟩
  intro tf lines
  unfold monitorRun
  rw [List.chain'_append]
  refine ⟨(runTicks_chain lines _).imp (fun a b hab => fgt_fle hab),
    List.chain'_singleton _, ?_⟩
  intro x hx y hy
  have hy' : finalSample = y := by simpa using hy
  subst hy'
  have hxmem : x ∈ runTicks tf (.fin 0) lines := by
    rcases List.mem_getLast?_eq_getLast hx with ⟨hl, rfl⟩
    exact List.getLast_mem hl
  rcases (runTicks_all lines _ x hxmem).2.1 with ⟨q, hq, hq100⟩
  rw [hq]
  simp [fle, finalSample, hq100]

/-- C2 witness: the emission condition applied to the scenario line
from a fresh monitor state. -/
theorem claim_C2_monotone_progress_witness :
    fgt (GoFloat.fin 50) (GoFloat.fin 0) = true :=
  claim_C2_monotone_progress.1 100 (.fin 0) exLine
    ⟨.fin 50, "1.2x".toList⟩ (by rw [monitorTick_example])

/-! ## C3: division-by-zero safety -/

theorem fdiv_zero_total (cf : ℕ) :
    fdiv (cf : ℚ) 0 = (if 0 < cf then GoFloat.posInf else GoFloat.nan) := by
  unfold fdiv
  rw [if_pos rfl]
  by_cases h : 0 < cf
  · rw [if_pos (by exact_mod_cast h), if_pos h]
  · have h' : ¬ (0 : ℚ) < (cf : ℚ) := by exact_mod_cast h
    rw [if_neg h', if_neg (not_lt.mpr (by exact_mod_cast Nat.zero_le cf)), if_neg h]

/-- C3: with `totalFrames = 0` the percentage computation is total
(the modelled float division yields an infinity or NaN, it does not
fault), and on every tick the monitor either emits no sample (the NaN
case, `currentFrame = 0`, and every non-matching line) or emits the
clamped fallback value 100 (the infinity case, `currentFrame > 0`). -/
theorem claim_C3_zero_total_frames : ∀ (lp : GoFloat) (line : GoStr),
    (monitorTick 0 lp line).2 = none ∨
      ∃ sp, (monitorTick 0 lp line).2 = some ⟨.fin 100, sp⟩ := by
  intro lp line
  rcases h1 : findFrame line with _ | cf
  · left
    rw [monitorTick_none (Or.inl h1)]
  · rcases h2 : findSpeed line with _ | sp
    · left
      rw [monitorTick_none (Or.inr h2)]
    · by_cases hrange : (cf : ℚ) < float64InfBound
      · rw [monitorTick_shape h1 h2, if_pos hrange, fdiv_zero_total]
        rcases Nat.eq_zero_or_pos cf with rfl | hcf
        · left
          rw [if_neg (lt_irrefl 0),
            show fmul100 GoFloat.nan = GoFloat.nan from rfl,
            show clamp100 GoFloat.nan = GoFloat.nan from rfl,
            fgt_nan_left, if_neg (by simp)]
        · rw [if_pos hcf, show fmul100 GoFloat.posInf = GoFloat.posInf from rfl,
            clamp100_posInf]
          by_cases hf : fgt (GoFloat.fin 100) lp = true
          · right
            exact ⟨trimSpace sp, by rw [if_pos hf]⟩
          · left
            rw [if_neg hf]
      · left
        rw [monitorTick_overflow h1 h2 (not_lt.mp hrange)]

/-! ## C5: telemetry extraction and percentage formula -/

set_option maxRecDepth 100000 in
/-- C5 counterexample: a line whose digit capture is 1 followed by
309 zeros (value `10^309`, beyond the double range).  Both telemetry
fields are present and the claimed formula would emit a sample — the
clamped percentage exceeds the fresh last-emitted percentage 0 — but
the float parse of the capture fails with a range error and the tick
yields no sample. -/
theorem claim_C5_counterexample :
    findFrame overLine = some (10 ^ 309) ∧
    findSpeed overLine = some "1.2x".toList ∧
    fgt (.fin (min (((10 ^ 309 : ℕ) : ℚ) / ((100 : ℤ) : ℚ) * 100) 100))
      (.fin 0) = true ∧
    (monitorTick 100 (.fin 0) overLine).2 = none := by
  have hff : findFrame overLine = some (10 ^ 309) := by decide
  have hfs : findSpeed overLine = some "1.2x".toList := by decide
  have hq : ((10 ^ 309 : ℕ) : ℚ) / ((100 : ℤ) : ℚ) * 100 = (10 : ℚ) ^ 309 := by
    push_cast
    rw [div_mul_cancel₀ _ (by norm_num : (100 : ℚ) ≠ 0)]
  have hmin : min (((10 ^ 309 : ℕ) : ℚ) / ((100 : ℤ) : ℚ) * 100) 100 = 100 := by
    rw [hq, min_eq_right (by norm_num : (100 : ℚ) ≤ (10 : ℚ) ^ 309)]
  have hr : float64InfBound ≤ ((10 ^ 309 : ℕ) : ℚ) := by
    unfold float64InfBound
    push_cast
    norm_num
  refine ⟨hff, hfs, ?_, ?_⟩
  · rw [hmin]
    rfl
  · rw [monitorTick_overflow hff hfs hr]

/-- C5 (amended): a line with a digit group after `frame=` and a
non-whitespace token after `speed=` yields (when the emission
threshold is passed) a sample whose percentage is
`(currentFrame / totalFrames) * 100` clamped to a ceiling of 100 and
whose speed is the extracted token — provided the digit capture
parses within the double range; a capture of `float64InfBound` or
more fails the float parse with a range error and that tick yields no
sample, and a line missing either field likewise yields no sample.
The scenario line `frame=  50 fps=30 q=28 size=... speed=1.2x` with
`totalFrames = 100` yields the sample 50% at speed `1.2x` from a
fresh monitor state. -/
theorem claim_C5_telemetry :
    (∀ (tf : ℤ) (lp : GoFloat) (line : GoStr),
        findFrame line = none ∨ findSpeed line = none →
          monitorTick tf lp line = (lp, none)) ∧
    (∀ (tf : ℤ) (lp : GoFloat) (line : GoStr) (cf : ℕ) (sp : GoStr),
        findFrame line = some cf → findSpeed line = some sp →
          float64InfBound ≤ (cf : ℚ) → monitorTick tf lp line = (lp, none)) ∧
    (∀ (tf : ℤ) (lp : GoFloat) (line : GoStr) (cf : ℕ) (sp : GoStr),
        tf ≠ 0 → (cf : ℚ) < float64InfBound →
          findFrame line = some cf → findSpeed line = some sp →
          monitorTick tf lp line =
            if fgt (.fin (min ((cf : ℚ) / (tf : ℚ) * 100) 100)) lp then
              (.fin (min ((cf : ℚ) / (tf : ℚ) * 100) 100),
                some ⟨.fin (min ((cf : ℚ) / (tf : ℚ) * 100) 100), sp⟩)
            else (lp, none)) ∧
    monitorTick 100 (.fin 0) exLine =
      (.fin 50, some ⟨.fin 50, "1.2x".toList⟩) :=
  ⟨fun _ _ _ h => monitorTick_none h,
    fun _ _ _ _ _ h1 h2 hr => monitorTick_overflow h1 h2 hr,
    fun _ _ _ _ _ htf hrange h1 h2 => monitorTick_some htf hrange h1 h2,
    monitorTick_example⟩

/-- C5 witness: the extraction theorem applied to the scenario line
with `totalFrames = 100` and a fresh monitor state. -/
theorem claim_C5_telemetry_witness :
    monitorTick 100 (.fin 0) exLine =
      if fgt (.fin (min (((50 : ℕ) : ℚ) / ((100 : ℤ) : ℚ) * 100) 100))
          (GoFloat.fin 0) then
        (.fin (min (((50 : ℕ) : ℚ) / ((100 : ℤ) : ℚ) * 100) 100),
          some ⟨.fin (min (((50 : ℕ) : ℚ) / ((100 : ℤ) : ℚ) * 100) 100),
            "1.2x".toList⟩)
      else (.fin 0, none) :=
  claim_C5_telemetry.2.2.1 100 (.fin 0) exLine 50 "1.2x".toList
    (by decide) fifty_lt_bound rfl rfl

/-! ## C6 and C7: supervisor event trace -/

theorem filter_ticksAsEvents_eq_nil {p : Ev → Bool} {tf : ℤ} {lines : List GoStr}
    (hp : ∀ s ∈ runTicks tf (.fin 0) lines,
      p (Ev.progressEv s.progress s.speed) = false) :
    (ticksAsEvents tf lines).filter p = [] := by
  unfold ticksAsEvents
  rw [List.filter_eq_nil_iff]
  intro a ha
  rcases List.mem_map.mp ha with ⟨s, hs, rfl⟩
  simp [hp s hs]

theorem drop_len_append {α : Type} (l r : List α) : (l ++ r).drop l.length = r := by
  induction l with
  | nil => rfl
  | cons a as ih =>
    simp only [List.cons_append, List.length_cons, List.drop_succ_cons]
    exact ih

/-- C6: on the success path of `ConvertVideo`, the result is ok and
the events end with the done-triggered terminal sample (100%, empty
speed), then exactly one completion event carrying the output path,
then exactly one next-job signal, in that order; each of the three
occurs exactly once in the whole trace (tick samples always carry a
non-empty speed, so none of them equals the terminal sample). -/
theorem claim_C6_success_ordering (inp out : GoStr) (tf : ℤ)
    (lines : List GoStr) :
    (convertVideo inp out tf lines none none none none).1 = .ok () ∧
    (convertVideo inp out tf lines none none none none).2.filter isCompleteEv =
      [Ev.completeEv (deriveOutputPath inp out)] ∧
    (convertVideo inp out tf lines none none none none).2.filter isNextEv =
      [Ev.nextEv] ∧
    (convertVideo inp out tf lines none none none none).2.filter isFinal100 =
      [Ev.progressEv (.fin 100) []] ∧
    (convertVideo inp out tf lines none none none none).2.drop
        ((convertVideo inp out tf lines none none none none).2.length - 3) =
      [Ev.progressEv (.fin 100) [], Ev.completeEv (deriveOutputPath inp out),
        Ev.nextEv] := by
  have hev : (convertVideo inp out tf lines none none none none).2 =
      ticksAsEvents tf lines ++
        [Ev.progressEv (.fin 100) [], Ev.completeEv (deriveOutputPath inp out),
          Ev.nextEv] := rfl
  refine ⟨rfl, ?_, ?_, ?_, ?_⟩
  · rw [hev, List.filter_append, filter_ticksAsEvents_eq_nil (fun s _ => rfl)]
    rfl
  · rw [hev, List.filter_append, filter_ticksAsEvents_eq_nil (fun s _ => rfl)]
    rfl
  · rw [hev, List.filter_append, filter_ticksAsEvents_eq_nil ?_]
    · rfl
    · intro s hs
      have hsp := (runTicks_all lines (.fin 0) s hs).2.2
      simp only [isFinal100, decide_eq_false_iff_not]
      intro h
      injection h with _ h2
      exact hsp h2
  · rw [hev, List.length_append]
    simp only [List.length_cons, List.length_nil]
    rw [Nat.add_sub_cancel]
    exact drop_len_append _ _

/-- C7 counterexample: when the encoder fails to launch,
`ConvertVideo` returns the error but emits no events at all — in
particular no error event is signaled, contradicting the claim that
an error event is signaled whenever the encoder exits non-zero or
fails to launch. -/
theorem claim_C7_counterexample :
    (convertVideo ['a'] ['o'] 100 [] none none (some "boom".toList) none).2
      = [] ∧
    (convertVideo ['a'] ['o'] 100 [] none none (some "boom".toList) none).1 =
      .error ("failed to start FFmpeg: ".toList ++ "boom".toList) :=
  ⟨rfl, rfl⟩

/-- C7 (amended): when the encoder exits non-zero, `ConvertVideo`
returns an error carrying the process error, emits exactly one error
event carrying it, and emits no completion and no next event (the
failed job is terminal, with no retry; the frontend advances the
queue from its error handler).  When the encoder fails to launch,
`ConvertVideo` returns an error carrying the process error and emits
no events at all; the failure reaches the caller only through the
returned error. -/
theorem claim_C7_encode_failure :
    (∀ (inp out : GoStr) (tf : ℤ) (lines : List GoStr) (e : GoStr),
        (convertVideo inp out tf lines none none none (some e)).1 =
          .error ("FFmpeg error: ".toList ++ e) ∧
        (convertVideo inp out tf lines none none none (some e)).2.filter
          isErrorEv = [Ev.errorEv e] ∧
        (convertVideo inp out tf lines none none none (some e)).2.filter
          isCompleteEv = [] ∧
        (convertVideo inp out tf lines none none none (some e)).2.filter
          isNextEv = []) ∧
    (∀ (inp out : GoStr) (tf : ℤ) (lines : List GoStr) (e : GoStr),
        (convertVideo inp out tf lines none none (some e) none).1 =
          .error ("failed to start FFmpeg: ".toList ++ e) ∧
        (convertVideo inp out tf lines none none (some e) none).2 = []) := by
  constructor
  · intro inp out tf lines e
    have hev : (convertVideo inp out tf lines none none none (some e)).2 =
        ticksAsEvents tf lines ++
          [Ev.errorEv e, Ev.progressEv (.fin 100) []] := rfl
    refine ⟨rfl, ?_, ?_, ?_⟩
    · rw [hev, List.filter_append, filter_ticksAsEvents_eq_nil (fun s _ => rfl)]
      rfl
    · rw [hev, List.filter_append, filter_ticksAsEvents_eq_nil (fun s _ => rfl)]
      rfl
    · rw [hev, List.filter_append, filter_ticksAsEvents_eq_nil (fun s _ => rfl)]
      rfl
  · intro inp out tf lines e
    exact ⟨rfl, rfl⟩

/-! ## C4: bounded-window tail read -/

/-- C4 counterexample: on a 9-byte log file the first tick's failed
seek leaves the position at 0 (so the whole file is scanned), but the
scan moves the position to the end of the file; on the next tick the
failed seek leaves the position there — it is not clamped to the
start of the file — so that tick scans nothing, while a clamped seek
would re-read the line. -/
theorem claim_C4_counterexample :
    (monitorReadTick smallLog 0).2 = 9 ∧
    seekFromEnd (monitorReadTick smallLog 0).2 smallLog.length = 9 ∧
    seekClamped (monitorReadTick smallLog 0).2 smallLog.length = 0 ∧
    seekFromEnd (monitorReadTick smallLog 0).2 smallLog.length ≠
      seekClamped (monitorReadTick smallLog 0).2 smallLog.length ∧
    (monitorReadTick smallLog (monitorReadTick smallLog 0).2).1 = [] ∧
    (monitorReadTick smallLog 0).1 ≠ [] := by decide

/-- C4 (amended): the tick's seek is total and its failure is ignored
rather than treated as an error: with at least 1024 bytes in the file
the position becomes `size - 1024`; with fewer the seek fails and the
position is left unchanged — which equals the start of the file only
when the position already is 0, as on the first tick, whose scan then
covers the whole file.  Every tick completes its read phase and
leaves the position at the end of the file. -/
theorem claim_C4_tail_read :
    (∀ pos size : ℕ, 1024 ≤ size → seekFromEnd pos size = size - 1024) ∧
    (∀ pos size : ℕ, size < 1024 → seekFromEnd pos size = pos) ∧
    (∀ content : GoStr, content.length < 1024 →
        monitorReadTick content 0 = (lastLineOf content, content.length)) ∧
    (∀ (content : GoStr) (pos : ℕ),
        (monitorReadTick content pos).2 = content.length) := by
  refine ⟨?_, ?_, ?_, fun content pos => rfl⟩
  · intro pos size h
    unfold seekFromEnd
    rw [if_pos h]
  · intro pos size h
    unfold seekFromEnd
    rw [if_neg (not_le.mpr h)]
  · intro content h
    unfold monitorReadTick
    rw [show seekFromEnd 0 content.length = 0 from by
        unfold seekFromEnd; rw [if_neg (not_le.mpr h)],
      List.drop_zero]

/-- C4 witness: the amended theorem applied at a 10-byte file with
position 5, and at a 2048-byte file. -/
theorem claim_C4_tail_read_witness :
    seekFromEnd 5 10 = 5 ∧ seekFromEnd 0 2048 = 2048 - 1024 :=
  ⟨claim_C4_tail_read.2.1 5 10 (by decide),
    claim_C4_tail_read.1 0 2048 (by decide)⟩

/-! ## C8: probe failure conditions -/

/-- C8: the probe returns an error exactly when the metadata process
fails, when its output does not decode into the probe schema, or when
the decoded result has no streams; in every other case it returns a
media descriptor. -/
theorem claim_C8_probe_conditions :
    (∀ (fp : GoStr) (runErr : Option GoStr) (parsed : Option ProbeResult),
        (∃ e, getVideoInfo fp runErr parsed = .error e) ↔
          (runErr ≠ none ∨ parsed = none ∨
            ∃ r, parsed = some r ∧ r.streams = [])) ∧
    (∀ (fp : GoStr) (r : ProbeResult), r.streams ≠ [] →
        ∃ v, getVideoInfo fp none (some r) = .ok v) := by
  constructor
  · intro fp runErr parsed
    cases runErr with
    | some e => simp [getVideoInfo]
    | none =>
      cases parsed with
      | none => simp [getVideoInfo]
      | some r =>
        by_cases hs : r.streams = []
        · simp [getVideoInfo, hs]
        · simp [getVideoInfo, hs]
  · intro fp r hr
    cases hgo : getVideoInfo fp none (some r) with
    | error e => simp [getVideoInfo, hr] at hgo
    | ok v => exact ⟨v, rfl⟩

/-- C8 witness: a successful probe of a one-stream result. -/
theorem claim_C8_probe_conditions_witness :
    ∃ v, getVideoInfo ['f'] none
      (some ⟨[⟨"h264".toList, "1500".toList, "30".toList⟩],
        ⟨"10.0".toList, "1048576".toList⟩⟩) = .ok v :=
  claim_C8_probe_conditions.2 ['f'] _ (by decide)
